import Mathlib

/-!
Verification of the repository-analysis pipeline of docweave-hub.

The JavaScript source under verification is `src/lib/analyzer.js` (the
git-clone/file-walk implementation of `CodeAnalyzer`).  JavaScript strings are
modeled as Lean `String`s viewed through their `data : List Char` field; the
few JS string primitives the analyzer uses (`slice`, `startsWith`, `includes`,
`toLowerCase`, `trim`, `split`, `.length`) are reimplemented below on that
representation.  `JSON.parse` of a package manifest is modeled by a `json`
projection carried next to the raw text (`none` models a parse throw), since
the analyzer only ever looks at the key order of the `dependencies` and
`devDependencies` maps.  `Math.round` on JS floats is modeled over `ℚ`
(round-half-up, as JS does for the nonnegative values arising here).
-/

namespace DocWeave

/-- Model of JS `String.prototype.toLowerCase` (ASCII case folding). -/
def jsToLower (s : String) : String := ⟨s.data.map Char.toLower⟩

/-- Model of JS `s.startsWith(p)`. -/
def jsStartsWith (s p : String) : Bool := p.data.isPrefixOf s.data

/-- Model of JS `s.endsWith(p)` (used for the `$`-anchored skip patterns). -/
def jsEndsWith (s p : String) : Bool := p.data.isSuffixOf s.data

/-- Does `sub` occur as a contiguous subsequence of `s`? -/
def containsSeq (sub : List Char) : List Char → Bool
  | [] => sub.isEmpty
  | c :: cs => sub.isPrefixOf (c :: cs) || containsSeq sub cs

/-- Model of JS `s.includes(sub)`. -/
def jsIncludes (s sub : String) : Bool := containsSeq sub.data s.data

/-- Model of JS `s.slice(0, n)`. -/
def jsSlice (s : String) (n : Nat) : String := ⟨s.data.take n⟩

/-- Model of JS `s.length`. -/
def jsLength (s : String) : Nat := s.data.length

/-- Whitespace characters stripped by JS `trim` (the ASCII ones). -/
def isJsSpace (c : Char) : Bool :=
  c = ' ' || c = '\t' || c = '\n' || c = '\r' || c = '\x0b' || c = '\x0c'

/-- JS `trim` on the character-list view. -/
def jsTrimList (l : List Char) : List Char :=
  ((l.dropWhile isJsSpace).reverse.dropWhile isJsSpace).reverse

/-- Model of JS `s.trim()`. -/
def jsTrim (s : String) : String := ⟨jsTrimList s.data⟩

/-- Model of JS `s.split(c)` on the character-list view: `''.split(c) = ['']`. -/
def splitCharList (c : Char) : List Char → List (List Char)
  | [] => [[]]
  | x :: xs =>
    let r := splitCharList c xs
    if x = c then [] :: r
    else
      match r with
      | [] => [[x]]
      | h :: t => (x :: h) :: t

/-- Model of JS `s.split(c)`. -/
def jsSplit (s : String) (c : Char) : List String :=
  (splitCharList c s.data).map (⟨·⟩)

/-- JS `content.split('\n').length`: one more than the newline count. -/
def countLines (s : String) : Nat := (splitCharList '\n' s.data).length

/-- Model of JS `Math.round` over `ℚ`: `⌊q + 1/2⌋`, which is what `Math.round`
computes for the nonnegative values produced by the analyzer. -/
def jsRound (q : ℚ) : ℤ := Int.fdiv (2 * q.num + (q.den : ℤ)) (2 * (q.den : ℤ))

/-- Lexicographic comparison of character lists by code point, modeling the
default JS `Array.prototype.sort` comparator on strings. -/
def lexLtChars : List Char → List Char → Bool
  | [], [] => false
  | [], _ :: _ => true
  | _ :: _, [] => false
  | a :: as, b :: bs =>
    if a.val < b.val then true
    else if b.val < a.val then false
    else lexLtChars as bs

/-- String comparison used by the default JS sort. -/
def strLt (a b : String) : Bool := lexLtChars a.data b.data

/-- Model of Node `path.basename` for the slash-separated paths used here. -/
def basename (p : String) : String := ⟨(p.data.reverse.takeWhile (· ≠ '/')).reverse⟩

/-- Model of Node `path.join(a, b)` for the relative paths built by the walk
(`path.join('', b) = b`). -/
def joinPath (a b : String) : String := if a = "" then b else a ++ "/" ++ b

/-- Model of Node `path.extname` on a base name: the suffix from the last dot,
empty when there is no dot or the only dot is the leading character. -/
def extname (name : String) : String :=
  let l := name.data
  let afterRev := l.reverse.takeWhile (fun c => c ≠ '.')
  if afterRev.length = l.length then ""
  else if l.length - afterRev.length - 1 = 0 then ""
  else ⟨'.' :: afterRev.reverse⟩

/-- One entry of the file walk, mirroring the object literal pushed by
`scanDirectory` (`name`, `path`, `fullPath`, `size`, `extension`,
`isDirectory`). -/
structure FileDescriptor where
  name : String
  path : String
  fullPath : String
  size : Nat
  extension : String
  isDirectory : Bool
deriving DecidableEq

/-- The projection of a parsed `package.json` the analyzer consumes: the two
dependency maps as key/value lists in declared order (`none` models an absent
field). -/
structure PackageJson where
  dependencies : Option (List (String × String)) := none
  devDependencies : Option (List (String × String)) := none
deriving DecidableEq

/-- Content of one on-disk file.  `raw` is the text `fs.readFile` returns;
`json` models the outcome of `JSON.parse raw` (`none` models a parse throw),
carried alongside because the embedding does not reimplement a JSON parser. -/
structure FileData where
  raw : String
  json : Option PackageJson := none
deriving DecidableEq

/-- The filesystem visible to the extractors: full path to content.  A path
absent from the map models a read that throws. -/
def FileSystem := List (String × FileData)

/-- Model of `fs.readFile` (`none` models a thrown read error). -/
def readFile (fs : FileSystem) (p : String) : Option FileData :=
  (List.find? (fun e => e.1 == p) fs).map (·.2)

/-- Removes one path from the filesystem, so reads of it throw. -/
def removeContent (fs : FileSystem) (p : String) : FileSystem :=
  List.filter (fun e => !(e.1 == p)) fs

/-- The `dependencies` facet record. -/
structure DependenciesInfo where
  production : List String
  development : List String
  total : Nat
  packageManager : Option String
deriving DecidableEq

/-- Initial value of the `dependencies` accumulator in `analyzeDependencies`. -/
def emptyDependencies : DependenciesInfo :=
  { production := [], development := [], total := 0, packageManager := none }

/-- Predicate of `files.find(f => f.name === 'package.json' && !f.path.includes('/'))`. -/
def isRootPackageJson (f : FileDescriptor) : Bool :=
  f.name == "package.json" && !(jsIncludes f.path "/")

/-- Predicate of `files.find(f => f.name === 'requirements.txt')` — note: no
root restriction, any depth matches. -/
def isRequirementsFile (f : FileDescriptor) : Bool := f.name == "requirements.txt"

/-- Model of the `pythonDeps` computation in `analyzeDependencies`: split on
newlines, keep non-blank non-comment lines, take everything before the first
`>`/`=`/`<` and trim it. -/
def parseRequirements (content : String) : List String :=
  (((splitCharList '\n' content.data).filter
      (fun l => !(jsTrimList l).isEmpty && !("#".data.isPrefixOf l))).map
    (fun l => (⟨jsTrimList (l.takeWhile (fun c => c ≠ '>' && c ≠ '=' && c ≠ '<'))⟩ : String)))

/-- Embedding of `CodeAnalyzer.analyzeDependencies`.  The JS function mutates a
`dependencies` record in two independent try blocks (package.json first, then
requirements.txt); a throw inside a block leaves the record as it was before
the first mutation of that block, because each block's only throwing
operations (`readFile`, `JSON.parse`) precede all of its mutations. -/
def analyzeDependencies (files : List FileDescriptor) (fs : FileSystem) :
    DependenciesInfo :=
  let afterPkg :=
    match List.find? isRootPackageJson files with
    | none => emptyDependencies
    | some f =>
      match readFile fs f.fullPath with
      | none => emptyDependencies
      | some fd =>
        match fd.json with
        | none => emptyDependencies
        | some pkg =>
          let production := (pkg.dependencies.getD []).map (·.1)
          let development := (pkg.devDependencies.getD []).map (·.1)
          let pm := if files.any (fun g => g.name == "yarn.lock") then "yarn" else "npm"
          { production := production, development := development,
            total := production.length + development.length,
            packageManager := some pm }
  match List.find? isRequirementsFile files with
  | none => afterPkg
  | some f =>
    match readFile fs f.fullPath with
    | none => afterPkg
    | some fd =>
      let pythonDeps := parseRequirements fd.raw
      { afterPkg with
        production := pythonDeps, total := pythonDeps.length,
        packageManager := some "pip" }

/-- The fixed extension-to-language table of `analyzeLanguages`. -/
def languageMap (ext : String) : Option String :=
  if ext == ".js" then some "JavaScript"
  else if ext == ".jsx" then some "JavaScript"
  else if ext == ".ts" then some "TypeScript"
  else if ext == ".tsx" then some "TypeScript"
  else if ext == ".py" then some "Python"
  else if ext == ".java" then some "Java"
  else if ext == ".kt" then some "Kotlin"
  else if ext == ".go" then some "Go"
  else if ext == ".rs" then some "Rust"
  else if ext == ".php" then some "PHP"
  else if ext == ".rb" then some "Ruby"
  else if ext == ".cs" then some "C#"
  else if ext == ".cpp" then some "C++"
  else if ext == ".c" then some "C"
  else if ext == ".swift" then some "Swift"
  else if ext == ".dart" then some "Dart"
  else if ext == ".scala" then some "Scala"
  else none

/-- Increment of `languageCounts[language] = (languageCounts[language] || 0) + 1`
on the insertion-ordered association list modeling the JS object. -/
def bumpCount (lang : String) : List (String × Nat) → List (String × Nat)
  | [] => [(lang, 1)]
  | (l, n) :: rest =>
    if l == lang then (l, n + 1) :: rest else (l, n) :: bumpCount lang rest

/-- One iteration of the `files.forEach` loop of `analyzeLanguages`. -/
def countStep (acc : List (String × Nat)) (f : FileDescriptor) :
    List (String × Nat) :=
  match languageMap f.extension with
  | none => acc
  | some l => bumpCount l acc

/-- The `languageCounts` object after the `forEach` over the files; entry order
models JS string-key insertion order. -/
def languageCounts (files : List FileDescriptor) : List (String × Nat) :=
  files.foldl countStep []

/-- Stable insertion into a descending-by-count list: models one placement of
the stable JS `sort(([,a],[,b]) => b - a)`. -/
def insertByCountDesc (x : String × Nat) : List (String × Nat) → List (String × Nat)
  | [] => [x]
  | y :: ys => if x.2 < y.2 then y :: insertByCountDesc x ys else x :: y :: ys

/-- Stable descending sort by count, modeling the (stable) JS array sort used
on `Object.entries(languageCounts)`. -/
def sortByCountDesc : List (String × Nat) → List (String × Nat)
  | [] => []
  | x :: xs => insertByCountDesc x (sortByCountDesc xs)

/-- One element of the `languages` facet. -/
structure LanguageCount where
  language : String
  fileCount : Nat
deriving DecidableEq

/-- Embedding of `CodeAnalyzer.analyzeLanguages`. -/
def analyzeLanguages (files : List FileDescriptor) : List LanguageCount :=
  (sortByCountDesc (languageCounts files)).map (fun p => ⟨p.1, p.2⟩)

/-- JS truthiness of a string value (empty string is falsy). -/
def truthy (v : String) : Bool := v != ""

/-- Last-wins lookup in a JS object literal given as a key/value list. -/
def objGet (k : String) (l : List (String × String)) : Option String :=
  (List.find? (fun e => e.1 == k) l.reverse).map (·.2)

/-- Lookup in `allDeps = { ...dependencies, ...devDependencies }`: a key in
`devDependencies` overrides the same key in `dependencies`. -/
def allDepsGet (pkg : PackageJson) (k : String) : Option String :=
  match objGet k (pkg.devDependencies.getD []) with
  | some v => some v
  | none => objGet k (pkg.dependencies.getD [])

/-- Truthiness test `allDeps[k]` used by the framework signature table. -/
def hasDep (pkg : PackageJson) (k : String) : Bool :=
  match allDepsGet pkg k with
  | some v => truthy v
  | none => false

/-- Frameworks contributed by a parsed root `package.json`, in source order. -/
def pkgFrameworks (pkg : PackageJson) : List String :=
  (if hasDep pkg "react" then ["React"] else []) ++
  (if hasDep pkg "next" then ["Next.js"] else []) ++
  (if hasDep pkg "vue" then ["Vue.js"] else []) ++
  (if hasDep pkg "@angular/core" then ["Angular"] else []) ++
  (if hasDep pkg "express" then ["Express.js"] else []) ++
  (if hasDep pkg "fastify" then ["Fastify"] else []) ++
  (if hasDep pkg "@nestjs/core" then ["NestJS"] else []) ++
  (if hasDep pkg "svelte" then ["Svelte"] else []) ++
  (if hasDep pkg "nuxt" then ["Nuxt.js"] else []) ++
  (if hasDep pkg "gatsby" then ["Gatsby"] else [])

/-- Frameworks contributed by a readable `requirements.txt`. -/
def reqFrameworks (content : String) : List String :=
  let lines := jsToLower content
  (if jsIncludes lines "django" then ["Django"] else []) ++
  (if jsIncludes lines "flask" then ["Flask"] else []) ++
  (if jsIncludes lines "fastapi" then ["FastAPI"] else []) ++
  (if jsIncludes lines "tornado" then ["Tornado"] else []) ++
  (if jsIncludes lines "pyramid" then ["Pyramid"] else [])

/-- Frameworks contributed by a readable `pom.xml`. -/
def pomFrameworks (content : String) : List String :=
  (if jsIncludes content "spring-boot" then ["Spring Boot"] else []) ++
  (if jsIncludes content "spring-web" then ["Spring Framework"] else []) ++
  (if jsIncludes content "quarkus" then ["Quarkus"] else [])

/-- Embedding of `CodeAnalyzer.analyzeFrameworks`.  The JS `Set` preserves
insertion order and the three manifest blocks add pairwise-distinct names, so
list concatenation is a faithful model of `Array.from(frameworks)`; a failed
read or parse contributes nothing for that manifest type. -/
def analyzeFrameworks (files : List FileDescriptor) (fs : FileSystem) : List String :=
  let fromPkg :=
    match List.find? isRootPackageJson files with
    | none => []
    | some f =>
      match readFile fs f.fullPath with
      | none => []
      | some fd =>
        match fd.json with
        | none => []
        | some pkg => pkgFrameworks pkg
  let fromReq :=
    match List.find? isRequirementsFile files with
    | none => []
    | some f =>
      match readFile fs f.fullPath with
      | none => []
      | some fd => reqFrameworks fd.raw
  let fromPom :=
    match List.find? (fun f => f.name == "pom.xml") files with
    | none => []
    | some f =>
      match readFile fs f.fullPath with
      | none => []
      | some fd => pomFrameworks fd.raw
  fromPkg ++ fromReq ++ fromPom

/-- The `readme` facet: the JS function returns one of two object shapes
depending on whether the read succeeded.  The `hasMore` field is the record of
whether truncation occurred (`content.length > 8000`). -/
inductive ReadmeInfo where
  | found (filename : String) (content : String) (fullLength : Nat) (hasMore : Bool)
  | readFailed (filename : String)
deriving DecidableEq

/-- Predicate of the README lookup: name case-insensitively starts with
"readme" and the path is root-level. -/
def isRootReadme (f : FileDescriptor) : Bool :=
  jsStartsWith (jsToLower f.name) "readme" && !(jsIncludes f.path "/")

/-- Embedding of `CodeAnalyzer.findAndReadReadme`. -/
def findAndReadReadme (files : List FileDescriptor) (fs : FileSystem) :
    Option ReadmeInfo :=
  match List.find? isRootReadme files with
  | none => none
  | some f =>
    match readFile fs f.fullPath with
    | none => some (.readFailed f.name)
    | some fd =>
      some (.found f.name (jsSlice fd.raw 8000) (jsLength fd.raw)
        (decide (jsLength fd.raw > 8000)))

/-- The entry-point filename patterns, expanded from the anchored regexes of
`findEntryPoints` (every pattern carries priority 1 in the source). -/
def isEntryName (name : String) : Bool :=
  name ∈ ["index.js", "index.ts", "index.jsx", "index.tsx",
          "main.js", "main.ts", "main.jsx", "main.tsx",
          "app.js", "app.ts", "app.jsx", "app.tsx",
          "server.js", "server.ts", "server.jsx", "server.tsx",
          "main.py", "app.py", "server.py", "manage.py",
          "Main.java", "Application.java", "main.go", "main.rs"]

/-- The `getFileType` extension table. -/
def getFileType (ext : String) : String :=
  if ext == ".js" then "JavaScript"
  else if ext == ".ts" then "TypeScript"
  else if ext == ".py" then "Python"
  else if ext == ".java" then "Java"
  else if ext == ".go" then "Go"
  else if ext == ".rs" then "Rust"
  else "Unknown"

/-- One pushed entry-point record. -/
structure EntryPoint where
  file : String
  priority : Nat
  ftype : String
deriving DecidableEq

/-- Stable ascending insertion by priority, modeling one placement of the
stable JS `sort((a, b) => a.priority - b.priority)`. -/
def insertByPrioAsc (x : EntryPoint) : List EntryPoint → List EntryPoint
  | [] => [x]
  | y :: ys => if y.priority < x.priority then y :: insertByPrioAsc x ys else x :: y :: ys

/-- Stable ascending sort by priority. -/
def sortByPrioAsc : List EntryPoint → List EntryPoint
  | [] => []
  | x :: xs => insertByPrioAsc x (sortByPrioAsc xs)

/-- Embedding of `CodeAnalyzer.findEntryPoints`: the anchored patterns are
pairwise disjoint, so each matching file is pushed exactly once, always with
priority 1. -/
def findEntryPoints (files : List FileDescriptor) : List String :=
  let eps := files.foldl
    (fun acc f =>
      if !f.isDirectory && isEntryName f.name then
        acc ++ [⟨f.path, 1, getFileType f.extension⟩]
      else acc)
    []
  (sortByPrioAsc eps).map (·.file)

/-- The exact-name config patterns of `findConfigFiles`. -/
def configPatterns : List String :=
  ["package.json", "tsconfig.json", "webpack.config.js", "vite.config.js",
   "requirements.txt", "setup.py", "pyproject.toml", "Pipfile",
   "pom.xml", "build.gradle", "Cargo.toml", "go.mod",
   ".env", ".env.example", ".env.local",
   "docker-compose.yml", "Dockerfile",
   "nginx.conf", "apache.conf",
   ".eslintrc", ".prettierrc", ".babelrc"]

/-- The filter predicate of `findConfigFiles`. -/
def isConfigFile (f : FileDescriptor) : Bool :=
  !f.isDirectory &&
    (configPatterns.contains f.name ||
     jsEndsWith f.name ".config.js" ||
     jsEndsWith f.name ".config.ts" ||
     jsEndsWith f.name ".yml" ||
     jsEndsWith f.name ".yaml" ||
     jsEndsWith f.name ".toml" ||
     jsEndsWith f.name ".json")

/-- Embedding of `CodeAnalyzer.findConfigFiles` (filter, map to path, cap 20). -/
def findConfigFiles (files : List FileDescriptor) : List String :=
  (((files.filter isConfigFile).map (·.path)).take 20)

/-- The filter predicate of `findTestFiles`. -/
def isTestFile (f : FileDescriptor) : Bool :=
  !f.isDirectory &&
    (jsIncludes f.path "test" ||
     jsIncludes f.path "spec" ||
     jsIncludes f.path "__tests__" ||
     jsIncludes f.name ".test." ||
     jsIncludes f.name ".spec." ||
     jsEndsWith f.name "_test.py" ||
     jsEndsWith f.name "Test.java")

/-- Embedding of `CodeAnalyzer.findTestFiles` (filter, map to path, cap 30). -/
def findTestFiles (files : List FileDescriptor) : List String :=
  (((files.filter isTestFile).map (·.path)).take 30)

/-- One entry of the `apiSpecs` facet. -/
structure ApiSpec where
  file : String
  «type» : String
  size : Nat
  preview : String
deriving DecidableEq

/-- The OpenAPI/Swagger candidate filter of `findApiSpecs`: name contains
swagger/openapi/api or YAML extension, and size strictly below 1 MiB. -/
def isSpecCandidate (f : FileDescriptor) : Bool :=
  !f.isDirectory &&
    (jsIncludes (jsToLower f.name) "swagger" ||
     jsIncludes (jsToLower f.name) "openapi" ||
     jsIncludes (jsToLower f.name) "api" ||
     f.extension == ".yaml" || f.extension == ".yml") &&
    f.size < 1024 * 1024

/-- The GraphQL candidate filter of `findApiSpecs` — note: no size bound. -/
def isGraphqlCandidate (f : FileDescriptor) : Bool :=
  !f.isDirectory &&
    (f.extension == ".graphql" || f.extension == ".gql" ||
     jsIncludes (jsToLower f.name) "schema")

/-- Embedding of `CodeAnalyzer.findApiSpecs`: first five OpenAPI candidates
kept when their content carries an `openapi:`/`swagger:` marker, then first
three GraphQL candidates kept when their content carries a `type `/`schema `
marker; unreadable candidates are skipped. -/
def findApiSpecs (files : List FileDescriptor) (fs : FileSystem) : List ApiSpec :=
  let openapi := ((files.filter isSpecCandidate).take 5).filterMap
    (fun f =>
      match readFile fs f.fullPath with
      | none => none
      | some fd =>
        if jsIncludes fd.raw "openapi:" || jsIncludes fd.raw "swagger:" then
          some ⟨f.path, "OpenAPI/Swagger", f.size, jsSlice fd.raw 500⟩
        else none)
  let graphql := ((files.filter isGraphqlCandidate).take 3).filterMap
    (fun f =>
      match readFile fs f.fullPath with
      | none => none
      | some fd =>
        if jsIncludes fd.raw "type " || jsIncludes fd.raw "schema " then
          some ⟨f.path, "GraphQL", f.size, jsSlice fd.raw 500⟩
        else none)
  openapi ++ graphql

/-- The fixed code-extension list of `calculateCodeMetrics`. -/
def codeExtensions : List String :=
  [".js", ".jsx", ".ts", ".tsx", ".py", ".java", ".kt", ".go", ".rs",
   ".php", ".rb", ".cs", ".cpp", ".c"]

/-- The `metrics` facet record. -/
structure CodeMetrics where
  totalFiles : Nat
  codeFiles : Nat
  estimatedLinesOfCode : ℤ
  totalSizeBytes : Nat
  averageFileSize : ℤ
deriving DecidableEq

/-- Embedding of `CodeAnalyzer.calculateCodeMetrics`: samples the first ten
code files, sums line counts over the readable ones, divides by the full
sample length, extrapolates to all code files and rounds.  The running
`totalSize` accumulated during sampling is dead in the source (the result uses
a fresh `reduce` over all files), so it is not modeled. -/
def calculateCodeMetrics (files : List FileDescriptor) (fs : FileSystem) :
    CodeMetrics :=
  let codeFiles := files.filter
    (fun f => !f.isDirectory && codeExtensions.contains f.extension)
  let sample := codeFiles.take 10
  let totalLines := (sample.filterMap (fun f => readFile fs f.fullPath)).foldl
    (fun acc fd => acc + countLines fd.raw) 0
  let avgLinesPerFile : ℚ :=
    if 0 < sample.length then (totalLines : ℚ) / (sample.length : ℚ) else 0
  let sumSize := files.foldl (fun acc f => acc + f.size) 0
  { totalFiles := files.length,
    codeFiles := codeFiles.length,
    estimatedLinesOfCode := jsRound (avgLinesPerFile * (codeFiles.length : ℚ)),
    totalSizeBytes := sumSize,
    averageFileSize :=
      if 0 < files.length then jsRound ((sumSize : ℚ) / (files.length : ℚ)) else 0 }

/-- The `isImportantFile` allow list of `analyzeProjectStructure`. -/
def importantFileNames : List String :=
  ["package.json", "requirements.txt", "pom.xml", "Cargo.toml", "go.mod",
   "README.md", "README.txt", "LICENSE", "Dockerfile", "docker-compose.yml",
   "tsconfig.json", "webpack.config.js", "vite.config.js", ".env.example"]

/-- Embedding of `CodeAnalyzer.isImportantFile`. -/
def isImportantFile (filename : String) : Bool :=
  importantFileNames.contains filename || jsStartsWith (jsToLower filename) "readme"

/-- Proper directory prefixes of a relative path: `parts.slice(0, i).join('/')`
for `1 ≤ i ≤ parts.length - 1`. -/
def dirPrefixes (p : String) : List String :=
  let parts := jsSplit p '/'
  (List.range (parts.length - 1)).map
    (fun i => String.intercalate "/" (parts.take (i + 1)))

/-- The directory `Set` of `analyzeProjectStructure` in insertion order. -/
def collectDirectories (files : List FileDescriptor) : List String :=
  files.foldl
    (fun acc f =>
      (dirPrefixes f.path).foldl
        (fun a d => if a.contains d then a else a ++ [d]) acc)
    []

/-- Insertion step of the ascending default-comparator JS sort (the sorted list
holds pairwise-distinct strings, so stability is moot). -/
def insertStrAsc (x : String) : List String → List String
  | [] => [x]
  | y :: ys => if strLt y x then y :: insertStrAsc x ys else x :: y :: ys

/-- Ascending sort modeling `Array.from(directories).sort()`. -/
def sortStringsAsc : List String → List String
  | [] => []
  | x :: xs => insertStrAsc x (sortStringsAsc xs)

/-- Embedding of `CodeAnalyzer.analyzeProjectStructure`. -/
def analyzeProjectStructure (files : List FileDescriptor) (repoPath : String) :
    String :=
  let sortedDirs := sortStringsAsc (collectDirectories files)
  let rootFiles := (files.filter
    (fun f => (jsSplit f.path '/').length == 1)).map (·.name)
  let importantDirs := (sortedDirs.filter (fun d => !(jsIncludes d "/"))).take 15
  let importantFiles := (rootFiles.filter isImportantFile).take 10
  let tree := [basename repoPath ++ "/"] ++
    importantDirs.map (fun d => "├── " ++ d ++ "/") ++
    importantFiles.map (fun f => "├── " ++ f)
  String.intercalate "\n" tree

/-- The `repository` header of the assembled result. -/
structure RepositoryMeta where
  name : String
  analyzedAt : String
  totalFiles : Nat
deriving DecidableEq

/-- The assembled analysis record returned by `performAnalysis`. -/
structure AnalysisResult where
  repository : RepositoryMeta
  «structure» : String
  languages : List LanguageCount
  frameworks : List String
  dependencies : DependenciesInfo
  readme : Option ReadmeInfo
  entryPoints : List String
  configFiles : List String
  testFiles : List String
  apiSpecs : List ApiSpec
  metrics : CodeMetrics
deriving DecidableEq

/-- Embedding of `CodeAnalyzer.performAnalysis` downstream of the walk: the
file list is the output of `scanDirectory(repoPath)` and `analyzedAt` stands
for `new Date().toISOString()`.  The `Promise.all` fan-out has no observable
interleaving here because every extractor is read-only, so the assembly is the
tuple of the extractor results. -/
def performAnalysis (files : List FileDescriptor) (fs : FileSystem)
    (repoPath repoName analyzedAt : String) : AnalysisResult :=
  { repository := ⟨repoName, analyzedAt, files.length⟩,
    «structure» := analyzeProjectStructure files repoPath,
    languages := analyzeLanguages files,
    frameworks := analyzeFrameworks files fs,
    dependencies := analyzeDependencies files fs,
    readme := findAndReadReadme files fs,
    entryPoints := findEntryPoints files,
    configFiles := findConfigFiles files,
    testFiles := findTestFiles files,
    apiSpecs := findApiSpecs files fs,
    metrics := calculateCodeMetrics files fs }

/-! Orchestrator model (`analyzeRepository` / `cleanup`).

The orchestrator's observable behavior is a function of the outcomes of its
three effectful steps, modeled as `Except` parameters: the clone (already
wrapped as `Failed to clone repository: …` by `cloneRepository`), the analysis
(already wrapped as `Repository analysis failed: …` by `performAnalysis`), and
the `fs.rm` call inside `cleanup`.  The side effect of interest — that the
cleanup step ran — is recorded in an event trace. -/

/-- Observable events of one orchestrator run. -/
inductive RunEvent where
  | cleanupInvoked
  | cleanupWarned
deriving DecidableEq

/-- Embedding of `CodeAnalyzer.cleanup`: the `fs.rm` outcome is caught; a
failure is logged (`cleanupWarned`) and never rethrown, so the returned
outcome is always `ok`. -/
def cleanup (rmOutcome : Except String Unit) :
    Except String Unit × List RunEvent :=
  match rmOutcome with
  | .ok _ => (.ok (), [.cleanupInvoked])
  | .error _ => (.ok (), [.cleanupInvoked, .cleanupWarned])

/-- JS `try … finally` semantics on outcomes: an exception thrown by the
`finally` block supersedes the body's outcome, otherwise the body's outcome
stands. -/
def tryFinally {α : Type} (body : Except String α) (fin : Except String Unit) :
    Except String α :=
  match fin with
  | .error e => .error e
  | .ok _ => body

/-- Embedding of `CodeAnalyzer.analyzeRepository`: clone, then analyze, with
the catch block rethrowing the error unchanged (after logging) and the
`finally` block running `cleanup(clonePath)` on every exit path. -/
def analyzeRepository (cloneOutcome : Except String Unit)
    (analysisOutcome : Except String AnalysisResult)
    (rmOutcome : Except String Unit) :
    Except String AnalysisResult × List RunEvent :=
  let body : Except String AnalysisResult :=
    match cloneOutcome with
    | .error e => .error e
    | .ok _ => analysisOutcome
  let fin := cleanup rmOutcome
  (tryFinally body fin.1, fin.2)

/-! File-walker model (`scanDirectory`).

The on-disk tree under the scratch directory is modeled as an inductive tree;
`scanDirectory` is translated with its recursion measure made explicit as the
remaining depth budget `maxDepth - currentDepth` (the source checks
`currentDepth >= maxDepth` on entering a directory and recurses with
`currentDepth + 1`). -/

/-- A directory tree as seen by the walk (entry order is `readdir` order). -/
inductive FsTree where
  | file (name : String) (size : Nat)
  | dir (name : String) (children : List FsTree)

/-- Name of a tree entry. -/
def FsTree.entryName : FsTree → String
  | .file n _ => n
  | .dir n _ => n

/-- The dotfile allow list of `shouldSkipFile`. -/
def allowedDotfiles : List String :=
  [".env", ".gitignore", ".dockerignore", ".eslintrc", ".prettierrc"]

/-- Embedding of `CodeAnalyzer.shouldSkipFile`: the allow-list branch, then the
`skipPatterns.some(...)` test with the anchored regexes expanded.  (As in the
source, the `/^\./` pattern fires even for allow-listed dotfiles.) -/
def shouldSkipFile (filename : String) : Bool :=
  if jsStartsWith filename "." &&
      !(allowedDotfiles.any (fun a => jsStartsWith filename a)) then
    true
  else
    jsStartsWith filename "." ||
    filename == "node_modules" || filename == "__pycache__" ||
    filename == ".git" || filename == "target" || filename == "build" ||
    filename == "dist" || filename == ".next" || filename == "coverage" ||
    jsEndsWith filename ".tmp" || jsEndsWith filename ".log" ||
    jsEndsWith filename "~"

/-- Walk of one directory's children with `fuel = maxDepth - currentDepth`:
at fuel 0 the depth check `currentDepth >= maxDepth` returns `[]`; otherwise
the `for (const entry of entries)` loop skips filtered names, emits a
descriptor for each file, and recurses (with one less depth budget) into each
directory, concatenating in entry order. -/
def scanDirAux : Nat → List FsTree → String → String → List FileDescriptor
  | 0, _, _, _ => []
  | fuel + 1, children, dirPath, relativePath =>
    children.flatMap (fun e =>
      if shouldSkipFile e.entryName then []
      else
        match e with
        | .file n size =>
          [{ name := n, path := joinPath relativePath n,
             fullPath := joinPath dirPath n, size := size,
             extension := jsToLower (extname n), isDirectory := false }]
        | .dir n sub =>
          scanDirAux fuel sub (joinPath dirPath n) (joinPath relativePath n))

/-- Embedding of `CodeAnalyzer.scanDirectory` at its original signature
(the source default is `maxDepth = 8`, `currentDepth = 0`). -/
def scanDirectory (children : List FsTree) (dirPath relativePath : String)
    (maxDepth currentDepth : Nat) : List FileDescriptor :=
  scanDirAux (maxDepth - currentDepth) children dirPath relativePath

/-- Directory ancestors of a relative path, as the spec's invariant reads
them: the proper prefixes of the path at separator boundaries. -/
def pathAncestors (p : String) : List String := dirPrefixes p

/-- Formalizes the spec's tie-break key for the `languages` facet: the index
of the first file whose extension maps to the given language, i.e. the point
at which that language's extension is first encountered while scanning. -/
def firstEncounterIdx (files : List FileDescriptor) (lang : String) : Nat :=
  List.findIdx (fun f => languageMap f.extension == some lang) files

/-! Concrete fixtures used by witness and counterexample theorems. -/

/-- A root `package.json` descriptor. -/
def pkgDescriptor : FileDescriptor :=
  ⟨"package.json", "package.json", "/repo/package.json", 120, ".json", false⟩

/-- A nested `requirements.txt` descriptor (the lookup has no root
restriction). -/
def reqDescriptor : FileDescriptor :=
  ⟨"requirements.txt", "api/requirements.txt", "/repo/api/requirements.txt", 30,
   ".txt", false⟩

/-- Content of a well-formed manifest with one dependency and one
devDependency. -/
def validPkgData : FileData :=
  ⟨"a valid manifest", some ⟨some [("react", "18.0.0")], some [("jest", "29.0.0")]⟩⟩

/-- Content of a malformed manifest (`JSON.parse` throws). -/
def badPkgData : FileData := ⟨"this is not valid JSON", none⟩

/-- Content of a one-line requirements file. -/
def reqData : FileData := ⟨"flask>=2.0", none⟩

/-- File list holding both manifests. -/
def mixedFiles : List FileDescriptor := [pkgDescriptor, reqDescriptor]

/-- Filesystem with the well-formed manifest and the requirements file. -/
def mixedFs : FileSystem :=
  [("/repo/package.json", validPkgData), ("/repo/api/requirements.txt", reqData)]

/-- Filesystem with the malformed manifest and the requirements file. -/
def badPkgFs : FileSystem :=
  [("/repo/package.json", badPkgData), ("/repo/api/requirements.txt", reqData)]

/-- A root README descriptor. -/
def readmeDescriptor : FileDescriptor :=
  ⟨"README.md", "README.md", "/repo/README.md", 8001, ".md", false⟩

/-- README content one character past the 8000-character budget. -/
def bigReadmeText : String := ⟨List.replicate 8001 'a'⟩

/-- Filesystem holding the long README. -/
def readmeFs : FileSystem := [("/repo/README.md", ⟨bigReadmeText, none⟩)]

/-- An OpenAPI candidate descriptor below the size ceiling. -/
def swaggerDescriptor : FileDescriptor :=
  ⟨"swagger.yaml", "docs/swagger.yaml", "/repo/docs/swagger.yaml", 100, ".yaml", false⟩

/-- A GraphQL schema descriptor of 2 MiB, twice the OpenAPI size ceiling. -/
def graphqlDescriptor : FileDescriptor :=
  ⟨"big.graphql", "big.graphql", "/repo/big.graphql", 2097152, ".graphql", false⟩

/-- Filesystem holding both API-spec candidates. -/
def specFs : FileSystem :=
  [("/repo/docs/swagger.yaml", ⟨"openapi: 3.0.0", none⟩),
   ("/repo/big.graphql", ⟨"type Query", none⟩)]

/-- A file list with 21 config-pattern matches followed by 31 test matches. -/
def manyMatchFiles : List FileDescriptor :=
  List.replicate 21 ⟨"c.json", "c.json", "/repo/c.json", 1, ".json", false⟩ ++
  List.replicate 31 ⟨"t.js", "test/t.js", "/repo/test/t.js", 1, ".js", false⟩

/-- A one-directory, one-file scratch tree. -/
def c7Tree : List FsTree := [.dir "sub" [.file "a.js" 10]]

/-! Theorems. -/

/-- C1: for every input to `analyzeRepository`, whether the run ends in
success, a fetch failure, or an analysis failure, the cleanup step on the
scratch directory is invoked on that exit path, and a failure inside the
cleanup step never propagates to the caller: the returned outcome is exactly
the clone/analysis outcome, independent of the `fs.rm` outcome. -/
theorem C1_cleanup_always_runs_never_escalates
    (cloneOutcome : Except String Unit)
    (analysisOutcome : Except String AnalysisResult)
    (rmOutcome : Except String Unit) :
    RunEvent.cleanupInvoked ∈ (analyzeRepository cloneOutcome analysisOutcome rmOutcome).2 ∧
    (analyzeRepository cloneOutcome analysisOutcome rmOutcome).1 =
      (match cloneOutcome with
       | .error e => .error e
       | .ok _ => analysisOutcome) := by
  cases rmOutcome <;> cases cloneOutcome <;>
    simp [analyzeRepository, cleanup, tryFinally]

/-- C6: for the empty file list, the analysis assembly succeeds (the embedded
assembly is a total function) and yields an `AnalysisResult` in which every
sequence field is empty and every count field is zero. -/
theorem C6_empty_file_list_all_empty (fs : FileSystem) (rp rn ts : String) :
    (performAnalysis [] fs rp rn ts).repository.totalFiles = 0 ∧
    (performAnalysis [] fs rp rn ts).languages = [] ∧
    (performAnalysis [] fs rp rn ts).frameworks = [] ∧
    (performAnalysis [] fs rp rn ts).dependencies =
      { production := [], development := [], total := 0, packageManager := none } ∧
    (performAnalysis [] fs rp rn ts).readme = none ∧
    (performAnalysis [] fs rp rn ts).entryPoints = [] ∧
    (performAnalysis [] fs rp rn ts).configFiles = [] ∧
    (performAnalysis [] fs rp rn ts).testFiles = [] ∧
    (performAnalysis [] fs rp rn ts).apiSpecs = [] ∧
    (performAnalysis [] fs rp rn ts).metrics =
      { totalFiles := 0, codeFiles := 0, estimatedLinesOfCode := 0,
        totalSizeBytes := 0, averageFileSize := 0 } := by
  refine ⟨rfl, rfl, rfl, rfl, rfl, rfl, rfl, rfl, rfl, ?_⟩
  show calculateCodeMetrics [] fs = _
  simp [calculateCodeMetrics, jsRound]

/-- C9: given more than 20 matching config-like files, `configFiles` has
exactly 20 entries — the first 20 matches in encounter order — and given more
than 30 matching test files, `testFiles` has exactly 30 entries, the first 30
matches in encounter order. -/
theorem C9_config_test_caps (files : List FileDescriptor) :
    (20 < ((files.filter isConfigFile).map (·.path)).length →
      findConfigFiles files = ((files.filter isConfigFile).map (·.path)).take 20 ∧
      (findConfigFiles files).length = 20) ∧
    (30 < ((files.filter isTestFile).map (·.path)).length →
      findTestFiles files = ((files.filter isTestFile).map (·.path)).take 30 ∧
      (findTestFiles files).length = 30) := by
  constructor <;> intro h <;> refine ⟨rfl, ?_⟩ <;>
    simp only [findConfigFiles, findTestFiles, List.length_take,
      List.length_map] at h ⊢ <;> omega

set_option maxRecDepth 4000 in
/-- Witness for C9 at a list of 21 config matches and 31 test matches. -/
theorem C9_config_test_caps_witness :
    (20 < ((manyMatchFiles.filter isConfigFile).map (·.path)).length ∧
      30 < ((manyMatchFiles.filter isTestFile).map (·.path)).length) ∧
    (findConfigFiles manyMatchFiles =
        ((manyMatchFiles.filter isConfigFile).map (·.path)).take 20 ∧
      (findConfigFiles manyMatchFiles).length = 20) ∧
    (findTestFiles manyMatchFiles =
        ((manyMatchFiles.filter isTestFile).map (·.path)).take 30 ∧
      (findTestFiles manyMatchFiles).length = 30) :=
  ⟨⟨by decide, by decide⟩,
   (C9_config_test_caps manyMatchFiles).1 (by decide),
   (C9_config_test_caps manyMatchFiles).2 (by decide)⟩

/-- C3: when the root README-like file found by the reader has content longer
than the 8000-character budget, the returned facet records the truncation flag
(`hasMore` in the source) as `true`, its content is the first 8000 characters
of the file (so the content length equals the budget), and `fullLength` is the
untruncated original length. -/
theorem C3_readme_truncation (files : List FileDescriptor) (fs : FileSystem)
    (f : FileDescriptor) (fd : FileData)
    (hfind : List.find? isRootReadme files = some f)
    (hread : readFile fs f.fullPath = some fd)
    (hlong : 8000 < jsLength fd.raw) :
    findAndReadReadme files fs =
      some (.found f.name (jsSlice fd.raw 8000) (jsLength fd.raw) true) ∧
    jsLength (jsSlice fd.raw 8000) = 8000 := by
  constructor
  · unfold findAndReadReadme
    rw [hfind]
    dsimp only
    rw [hread]
    dsimp only
    rw [decide_eq_true hlong]
  · dsimp only [jsLength, jsSlice] at hlong ⊢
    rw [List.length_take]
    omega

/-- Witness for C3 at a README of 8001 characters. -/
theorem C3_readme_truncation_witness :
    (List.find? isRootReadme [readmeDescriptor] = some readmeDescriptor ∧
      readFile readmeFs readmeDescriptor.fullPath = some ⟨bigReadmeText, none⟩ ∧
      8000 < jsLength bigReadmeText) ∧
    findAndReadReadme [readmeDescriptor] readmeFs =
      some (.found readmeDescriptor.name (jsSlice bigReadmeText 8000)
        (jsLength bigReadmeText) true) ∧
    jsLength (jsSlice bigReadmeText 8000) = 8000 :=
  ⟨⟨by decide, rfl,
    by dsimp only [jsLength, bigReadmeText]; rw [List.length_replicate]; omega⟩,
   C3_readme_truncation [readmeDescriptor] readmeFs readmeDescriptor
     ⟨bigReadmeText, none⟩ (by decide) rfl
     (by dsimp only [jsLength, bigReadmeText]; rw [List.length_replicate]; omega)⟩

/-- C4 counterexample: a file list with a valid root JSON manifest that also
holds a `requirements.txt`.  The claim's universally quantified conclusion
fails: `production` is not the manifest's dependency keys (`["react"]`) and
`total` is not the sum of the two list lengths. -/
theorem C4_counterexample :
    List.find? isRootPackageJson mixedFiles = some pkgDescriptor ∧
    readFile mixedFs pkgDescriptor.fullPath = some validPkgData ∧
    validPkgData.json =
      some ⟨some [("react", "18.0.0")], some [("jest", "29.0.0")]⟩ ∧
    (analyzeDependencies mixedFiles mixedFs).production ≠ ["react"] ∧
    (analyzeDependencies mixedFiles mixedFs).total ≠
      (analyzeDependencies mixedFiles mixedFs).production.length +
        (analyzeDependencies mixedFiles mixedFs).development.length := by
  decide

/-- C4 (amended with "and containing no requirements.txt file"): for every
file list containing a valid root JSON package manifest and no
`requirements.txt`, `production` is the keys of the manifest's `dependencies`
map in declared order, `development` the keys of `devDependencies` in declared
order, `total` their combined count, and `packageManager` is `"yarn"` when a
`yarn.lock` is present and `"npm"` otherwise — never null. -/
theorem C4_dependencies_from_manifest (files : List FileDescriptor)
    (fs : FileSystem) (f : FileDescriptor) (fd : FileData) (pkg : PackageJson)
    (hfind : List.find? isRootPackageJson files = some f)
    (hread : readFile fs f.fullPath = some fd)
    (hjson : fd.json = some pkg)
    (hnoreq : List.find? isRequirementsFile files = none) :
    analyzeDependencies files fs =
      { production := (pkg.dependencies.getD []).map (·.1),
        development := (pkg.devDependencies.getD []).map (·.1),
        total := (pkg.dependencies.getD []).length +
          (pkg.devDependencies.getD []).length,
        packageManager :=
          some (if files.any (fun g => g.name == "yarn.lock") then "yarn"
                else "npm") } ∧
    ((analyzeDependencies files fs).packageManager = some "yarn" ∨
     (analyzeDependencies files fs).packageManager = some "npm") := by
  have hmain : analyzeDependencies files fs =
      { production := (pkg.dependencies.getD []).map (·.1),
        development := (pkg.devDependencies.getD []).map (·.1),
        total := (pkg.dependencies.getD []).length +
          (pkg.devDependencies.getD []).length,
        packageManager :=
          some (if files.any (fun g => g.name == "yarn.lock") then "yarn"
                else "npm") } := by
    unfold analyzeDependencies
    rw [hfind]
    dsimp only
    rw [hread]
    dsimp only
    rw [hjson]
    dsimp only
    rw [hnoreq]
    simp [List.length_map]
  refine ⟨hmain, ?_⟩
  rw [hmain]
  by_cases hy : files.any (fun g => g.name == "yarn.lock") = true
  · left; simp [hy]
  · right; simp [hy]

/-- Witness for the amended C4 at a one-file list with the valid manifest. -/
theorem C4_dependencies_from_manifest_witness :
    (List.find? isRootPackageJson [pkgDescriptor] = some pkgDescriptor ∧
      readFile mixedFs pkgDescriptor.fullPath = some validPkgData ∧
      validPkgData.json =
        some ⟨some [("react", "18.0.0")], some [("jest", "29.0.0")]⟩ ∧
      List.find? isRequirementsFile [pkgDescriptor] = none) ∧
    analyzeDependencies [pkgDescriptor] mixedFs =
      { production := ["react"], development := ["jest"], total := 2,
        packageManager := some "npm" } ∧
    ((analyzeDependencies [pkgDescriptor] mixedFs).packageManager = some "yarn" ∨
     (analyzeDependencies [pkgDescriptor] mixedFs).packageManager = some "npm") :=
  ⟨⟨by decide, rfl, rfl, rfl⟩,
   ((C4_dependencies_from_manifest [pkgDescriptor] mixedFs pkgDescriptor
       validPkgData _ (by decide) rfl rfl rfl).1).trans (by decide),
   (C4_dependencies_from_manifest [pkgDescriptor] mixedFs pkgDescriptor
       validPkgData _ (by decide) rfl rfl rfl).2⟩

/-- C10: when the file list holds both a valid root `package.json` and a
readable `requirements.txt` (found at any depth), the Python block overwrites
`production`, `total` and `packageManager` (requirements names, their count,
"pip"), while `development` keeps the `devDependencies` keys from the JSON
manifest; consequently, whenever `devDependencies` is nonempty, `total` no
longer equals `production.length + development.length`. -/
theorem C10_requirements_overwrite (files : List FileDescriptor)
    (fs : FileSystem) (pf rf : FileDescriptor) (pfd rfd : FileData)
    (pkg : PackageJson)
    (h1 : List.find? isRootPackageJson files = some pf)
    (h2 : readFile fs pf.fullPath = some pfd)
    (h3 : pfd.json = some pkg)
    (h4 : List.find? isRequirementsFile files = some rf)
    (h5 : readFile fs rf.fullPath = some rfd) :
    analyzeDependencies files fs =
      { production := parseRequirements rfd.raw,
        development := (pkg.devDependencies.getD []).map (·.1),
        total := (parseRequirements rfd.raw).length,
        packageManager := some "pip" } ∧
    (pkg.devDependencies.getD [] ≠ [] →
      (analyzeDependencies files fs).total ≠
        (analyzeDependencies files fs).production.length +
          (analyzeDependencies files fs).development.length) := by
  have hmain : analyzeDependencies files fs =
      { production := parseRequirements rfd.raw,
        development := (pkg.devDependencies.getD []).map (·.1),
        total := (parseRequirements rfd.raw).length,
        packageManager := some "pip" } := by
    unfold analyzeDependencies
    rw [h1]
    dsimp only
    rw [h2]
    dsimp only
    rw [h3]
    dsimp only
    rw [h4]
    dsimp only
    rw [h5]
  refine ⟨hmain, fun hne => ?_⟩
  have hlen : 0 < (pkg.devDependencies.getD []).length := List.length_pos.mpr hne
  rw [hmain]
  dsimp only
  rw [List.length_map]
  omega

/-- Witness for C10 at the two-manifest fixture (requirements nested under
`api/`). -/
theorem C10_requirements_overwrite_witness :
    (List.find? isRootPackageJson mixedFiles = some pkgDescriptor ∧
      readFile mixedFs pkgDescriptor.fullPath = some validPkgData ∧
      validPkgData.json =
        some ⟨some [("react", "18.0.0")], some [("jest", "29.0.0")]⟩ ∧
      List.find? isRequirementsFile mixedFiles = some reqDescriptor ∧
      readFile mixedFs reqDescriptor.fullPath = some reqData) ∧
    analyzeDependencies mixedFiles mixedFs =
      { production := ["flask"], development := ["jest"], total := 1,
        packageManager := some "pip" } ∧
    (analyzeDependencies mixedFiles mixedFs).total ≠
      (analyzeDependencies mixedFiles mixedFs).production.length +
        (analyzeDependencies mixedFiles mixedFs).development.length :=
  ⟨⟨by decide, rfl, rfl, by decide, rfl⟩,
   ((C10_requirements_overwrite mixedFiles mixedFs pkgDescriptor reqDescriptor
       validPkgData reqData _ (by decide) rfl rfl (by decide) rfl).1).trans
     (by decide),
   (C10_requirements_overwrite mixedFiles mixedFs pkgDescriptor reqDescriptor
       validPkgData reqData _ (by decide) rfl rfl (by decide) rfl).2
     (by decide)⟩

/-- C2 counterexample: a file list with a malformed root `package.json` that
also holds a `requirements.txt`.  The claim's conclusion fails: the
dependencies facet is not the empty default and `packageManager` is not
null. -/
theorem C2_counterexample :
    List.find? isRootPackageJson mixedFiles = some pkgDescriptor ∧
    readFile badPkgFs pkgDescriptor.fullPath = some badPkgData ∧
    badPkgData.json = none ∧
    analyzeDependencies mixedFiles badPkgFs ≠ emptyDependencies ∧
    (analyzeDependencies mixedFiles badPkgFs).packageManager ≠ none := by
  decide

/-- Auxiliary for C7: every descriptor emitted by the bounded walk carries
`isDirectory = false`. -/
theorem scanDirAux_isDirectory_false :
    ∀ (fuel : Nat) (children : List FsTree) (dp rel : String)
      (d : FileDescriptor), d ∈ scanDirAux fuel children dp rel →
      d.isDirectory = false := by
  intro fuel
  induction fuel with
  | zero =>
    intro children dp rel d h
    simp [scanDirAux] at h
  | succ n ih =>
    intro children dp rel d h
    rw [scanDirAux] at h
    rcases List.mem_flatMap.mp h with ⟨e, _, he⟩
    by_cases hs : shouldSkipFile e.entryName
    · rw [if_pos hs] at he
      simp at he
    · rw [if_neg hs] at he
      cases e with
      | file nm sz =>
        simp only [List.mem_singleton] at he
        subst he
        rfl
      | dir nm sub => exact ih sub _ _ d he

/-- C7 counterexample: for the concrete tree `sub/a.js`, the walk emits the
file descriptor `sub/a.js` whose ancestor `sub` never appears in the sequence
as a descriptor with `isDirectory = true`. -/
theorem C7_counterexample :
    "sub" ∈ pathAncestors "sub/a.js" ∧
    "sub/a.js" ∈ (scanDirectory c7Tree "/repo" "" 8 0).map (·.path) ∧
    (∀ d ∈ scanDirectory c7Tree "/repo" "" 8 0,
      ¬(d.path = "sub" ∧ d.isDirectory = true)) := by
  decide

/-- C7 (amended): the walk emits no directory descriptors at all — every
`FileDescriptor` produced by `scanDirectory` has `isDirectory = false`
(directories are recursed into but never enumerated), so a file's directory
ancestors never appear as separate directory descriptors. -/
theorem C7_walk_emits_only_file_descriptors
    (children : List FsTree) (dirPath relativePath : String)
    (maxDepth currentDepth : Nat) (d : FileDescriptor)
    (h : d ∈ scanDirectory children dirPath relativePath maxDepth currentDepth) :
    d.isDirectory = false :=
  scanDirAux_isDirectory_false _ children dirPath relativePath d h

/-- Witness for the amended C7 at the concrete tree. -/
theorem C7_walk_emits_only_file_descriptors_witness :
    (⟨"a.js", "sub/a.js", "/repo/sub/a.js", 10, ".js", false⟩ : FileDescriptor)
        ∈ scanDirectory c7Tree "/repo" "" 8 0 ∧
    (⟨"a.js", "sub/a.js", "/repo/sub/a.js", 10, ".js", false⟩ :
        FileDescriptor).isDirectory = false :=
  ⟨by decide,
   C7_walk_emits_only_file_descriptors c7Tree "/repo" "" 8 0 _ (by decide)⟩

/-- C8 counterexample: a 2 MiB GraphQL schema is kept by `findApiSpecs` even
though its size is at (indeed above) the ceiling — the size bound only guards
OpenAPI/Swagger candidates. -/
theorem C8_counterexample :
    findApiSpecs [graphqlDescriptor] specFs =
      [⟨"big.graphql", "GraphQL", 2097152, "type Query"⟩] ∧
    ∃ e ∈ findApiSpecs [graphqlDescriptor] specFs, ¬(e.size < 1024 * 1024) := by
  decide

/-- C8 (amended): every `apiSpecs` entry stores the path and size of a file of
the list whose content carries the recognizable marker for its type
(`openapi:`/`swagger:` for OpenAPI/Swagger, `type `/`schema ` for GraphQL) and
whose preview is the 500-character prefix of the content; the fixed size
ceiling (1 MiB) holds for OpenAPI/Swagger entries, while GraphQL entries are
not size-bounded. -/
theorem C8_api_spec_entries (files : List FileDescriptor) (fs : FileSystem)
    (e : ApiSpec) (h : e ∈ findApiSpecs files fs) :
    ∃ f fd, f ∈ files ∧ e.file = f.path ∧ e.size = f.size ∧
      readFile fs f.fullPath = some fd ∧ e.preview = jsSlice fd.raw 500 ∧
      jsLength e.preview ≤ 500 ∧
      ((e.«type» = "OpenAPI/Swagger" ∧
         (jsIncludes fd.raw "openapi:" || jsIncludes fd.raw "swagger:") = true ∧
         f.size < 1024 * 1024) ∨
       (e.«type» = "GraphQL" ∧
         (jsIncludes fd.raw "type " || jsIncludes fd.raw "schema ") = true)) := by
  unfold findApiSpecs at h
  rcases List.mem_append.mp h with h1 | h1
  · rcases List.mem_filterMap.mp h1 with ⟨f, hf, hgf⟩
    have hfl : f ∈ files.filter isSpecCandidate := List.mem_of_mem_take hf
    have hff : f ∈ files := (List.mem_filter.mp hfl).1
    have hcand := (List.mem_filter.mp hfl).2
    cases hr : readFile fs f.fullPath with
    | none => rw [hr] at hgf; exact absurd hgf (by simp)
    | some fd =>
      rw [hr] at hgf
      dsimp only at hgf
      by_cases hm : (jsIncludes fd.raw "openapi:" || jsIncludes fd.raw "swagger:") = true
      · rw [if_pos hm] at hgf
        injection hgf with hgf
        subst hgf
        refine ⟨f, fd, hff, rfl, rfl, hr, rfl, ?_, Or.inl ⟨rfl, hm, ?_⟩⟩
        · dsimp only [jsLength, jsSlice]
          exact List.length_take_le 500 fd.raw.data
        · simp only [isSpecCandidate, Bool.and_eq_true, decide_eq_true_eq] at hcand
          exact hcand.2
      · rw [if_neg hm] at hgf
        exact absurd hgf (by simp)
  · rcases List.mem_filterMap.mp h1 with ⟨f, hf, hgf⟩
    have hfl : f ∈ files.filter isGraphqlCandidate := List.mem_of_mem_take hf
    have hff : f ∈ files := (List.mem_filter.mp hfl).1
    cases hr : readFile fs f.fullPath with
    | none => rw [hr] at hgf; exact absurd hgf (by simp)
    | some fd =>
      rw [hr] at hgf
      dsimp only at hgf
      by_cases hm : (jsIncludes fd.raw "type " || jsIncludes fd.raw "schema ") = true
      · rw [if_pos hm] at hgf
        injection hgf with hgf
        subst hgf
        refine ⟨f, fd, hff, rfl, rfl, hr, rfl, ?_, Or.inr ⟨rfl, hm⟩⟩
        dsimp only [jsLength, jsSlice]
        exact List.length_take_le 500 fd.raw.data
      · rw [if_neg hm] at hgf
        exact absurd hgf (by simp)

/-- Witness for the amended C8 at the OpenAPI fixture. -/
theorem C8_api_spec_entries_witness :
    (⟨"docs/swagger.yaml", "OpenAPI/Swagger", 100, "openapi: 3.0.0"⟩ : ApiSpec)
        ∈ findApiSpecs [swaggerDescriptor] specFs ∧
    (∃ f fd, f ∈ [swaggerDescriptor] ∧
      (⟨"docs/swagger.yaml", "OpenAPI/Swagger", 100, "openapi: 3.0.0"⟩ :
        ApiSpec).file = f.path ∧
      (⟨"docs/swagger.yaml", "OpenAPI/Swagger", 100, "openapi: 3.0.0"⟩ :
        ApiSpec).size = f.size ∧
      readFile specFs f.fullPath = some fd ∧
      (⟨"docs/swagger.yaml", "OpenAPI/Swagger", 100, "openapi: 3.0.0"⟩ :
        ApiSpec).preview = jsSlice fd.raw 500 ∧
      jsLength (⟨"docs/swagger.yaml", "OpenAPI/Swagger", 100,
        "openapi: 3.0.0"⟩ : ApiSpec).preview ≤ 500 ∧
      (((⟨"docs/swagger.yaml", "OpenAPI/Swagger", 100, "openapi: 3.0.0"⟩ :
          ApiSpec).«type» = "OpenAPI/Swagger" ∧
         (jsIncludes fd.raw "openapi:" || jsIncludes fd.raw "swagger:") = true ∧
         f.size < 1024 * 1024) ∨
       ((⟨"docs/swagger.yaml", "OpenAPI/Swagger", 100, "openapi: 3.0.0"⟩ :
          ApiSpec).«type» = "GraphQL" ∧
         (jsIncludes fd.raw "type " || jsIncludes fd.raw "schema ") = true))) :=
  ⟨by decide, C8_api_spec_entries [swaggerDescriptor] specFs _ (by decide)⟩

/-- Auxiliary: `findIdx` over an append resolves in the left part when a
witness exists there. -/
theorem findIdx_append_of_exists {α : Type} (p : α → Bool) :
    ∀ (l₁ l₂ : List α), (∃ x ∈ l₁, p x = true) →
      List.findIdx p (l₁ ++ l₂) = List.findIdx p l₁ := by
  intro l₁
  induction l₁ with
  | nil =>
    intro l₂ h
    rcases h with ⟨x, hx, _⟩
    simp at hx
  | cons a l ih =>
    intro l₂ h
    rw [List.cons_append, List.findIdx_cons, List.findIdx_cons]
    cases hpa : p a with
    | true => simp
    | false =>
      simp only [cond_false]
      rcases h with ⟨x, hx, hpx⟩
      rcases List.mem_cons.mp hx with rfl | hmem
      · rw [hpa] at hpx
        exact absurd hpx (by simp)
      · rw [ih l₂ ⟨x, hmem, hpx⟩]

/-- Auxiliary: `findIdx` over an append skips a left part with no witness. -/
theorem findIdx_append_of_forall {α : Type} (p : α → Bool) :
    ∀ (l₁ l₂ : List α), (∀ x ∈ l₁, p x = false) →
      List.findIdx p (l₁ ++ l₂) = l₁.length + List.findIdx p l₂ := by
  intro l₁
  induction l₁ with
  | nil => intro l₂ _; simp
  | cons a l ih =>
    intro l₂ h
    rw [List.cons_append, List.findIdx_cons, h a (List.mem_cons_self a l),
      cond_false, ih l₂ (fun x hx => h x (List.mem_cons_of_mem a hx))]
    simp only [List.length_cons]
    omega

/-- Auxiliary: bumping an existing language leaves the key sequence of the
counts object unchanged. -/
theorem keys_bumpCount_mem (lang : String) :
    ∀ acc : List (String × Nat), lang ∈ acc.map Prod.fst →
      (bumpCount lang acc).map Prod.fst = acc.map Prod.fst := by
  intro acc
  induction acc with
  | nil => intro h; simp at h
  | cons p rest ih =>
    obtain ⟨l, n⟩ := p
    intro h
    rw [bumpCount]
    by_cases hl : (l == lang) = true
    · rw [if_pos hl]
      simp
    · rw [if_neg hl]
      simp only [List.map_cons] at h ⊢
      rcases List.mem_cons.mp h with h | h
      · exact absurd (beq_iff_eq.mpr h.symm) hl
      · rw [ih h]

/-- Auxiliary: bumping a new language appends its key to the key sequence. -/
theorem keys_bumpCount_not_mem (lang : String) :
    ∀ acc : List (String × Nat), lang ∉ acc.map Prod.fst →
      (bumpCount lang acc).map Prod.fst = acc.map Prod.fst ++ [lang] := by
  intro acc
  induction acc with
  | nil => intro _; rfl
  | cons p rest ih =>
    obtain ⟨l, n⟩ := p
    intro h
    rw [bumpCount]
    by_cases hl : (l == lang) = true
    · exact absurd (by simp [beq_iff_eq.mp hl]) h
    · rw [if_neg hl]
      simp only [List.map_cons, List.cons_append]
      rw [ih (fun hmem => h (by simp [hmem]))]

/-- Auxiliary invariant of the counting loop: the keys of the counts object
are ordered by the index at which their language is first encountered in the
full file list. -/
theorem countsKeys_pairwise_aux (files : List FileDescriptor) :
    ∀ (rest processed : List FileDescriptor) (acc : List (String × Nat)),
      processed ++ rest = files →
      (∀ l : String, l ∈ acc.map Prod.fst ↔
        ∃ f ∈ processed, languageMap f.extension = some l) →
      List.Pairwise
        (fun a b => firstEncounterIdx files a < firstEncounterIdx files b)
        (acc.map Prod.fst) →
      List.Pairwise
        (fun a b => firstEncounterIdx files a < firstEncounterIdx files b)
        ((List.foldl countStep acc rest).map Prod.fst) := by
  intro rest
  induction rest with
  | nil =>
    intro processed acc _ _ hpw
    simpa using hpw
  | cons f fs ih =>
    intro processed acc hsplit hmem hpw
    rw [List.foldl_cons]
    cases hm : languageMap f.extension with
    | none =>
      have hstep : countStep acc f = acc := by simp [countStep, hm]
      rw [hstep]
      refine ih (processed ++ [f]) acc ?_ ?_ hpw
      · rw [List.append_assoc]
        simpa using hsplit
      · intro l
        rw [hmem l]
        constructor
        · rintro ⟨g, hg, hgl⟩
          exact ⟨g, List.mem_append_left _ hg, hgl⟩
        · rintro ⟨g, hg, hgl⟩
          rcases List.mem_append.mp hg with hg | hg
          · exact ⟨g, hg, hgl⟩
          · rw [List.mem_singleton] at hg
            subst hg
            rw [hm] at hgl
            simp at hgl
    | some lang =>
      have hstep : countStep acc f = bumpCount lang acc := by simp [countStep, hm]
      rw [hstep]
      by_cases hin : lang ∈ acc.map Prod.fst
      · refine ih (processed ++ [f]) (bumpCount lang acc) ?_ ?_ ?_
        · rw [List.append_assoc]
          simpa using hsplit
        · intro l
          rw [keys_bumpCount_mem lang acc hin, hmem l]
          constructor
          · rintro ⟨g, hg, hgl⟩
            exact ⟨g, List.mem_append_left _ hg, hgl⟩
          · rintro ⟨g, hg, hgl⟩
            rcases List.mem_append.mp hg with hg | hg
            · exact ⟨g, hg, hgl⟩
            · rw [List.mem_singleton] at hg
              subst hg
              rw [hm] at hgl
              injection hgl with hll
              subst hll
              exact (hmem lang).mp hin
        · rw [keys_bumpCount_mem lang acc hin]
          exact hpw
      · have hkeys := keys_bumpCount_not_mem lang acc hin
        have hnotproc :
            ∀ x ∈ processed, (languageMap x.extension == some lang) = false := by
          intro x hx
          by_contra hcontra
          have hx' : languageMap x.extension = some lang :=
            beq_iff_eq.mp (Bool.of_not_eq_false hcontra)
          exact hin ((hmem lang).mpr ⟨x, hx, hx'⟩)
        have hlangIdx : firstEncounterIdx files lang = processed.length := by
          unfold firstEncounterIdx
          rw [← hsplit, findIdx_append_of_forall _ processed (f :: fs) hnotproc,
            List.findIdx_cons, hm]
          simp
        have hpw' : List.Pairwise
            (fun a b => firstEncounterIdx files a < firstEncounterIdx files b)
            (acc.map Prod.fst ++ [lang]) := by
          rw [List.pairwise_append]
          refine ⟨hpw, List.pairwise_singleton _ _, ?_⟩
          intro a ha b hb
          rw [List.mem_singleton] at hb
          subst hb
          rcases (hmem a).mp ha with ⟨g, hg, hgl⟩
          have hexa : ∃ x ∈ processed,
              (fun x => languageMap x.extension == some a) x = true :=
            ⟨g, hg, beq_iff_eq.mpr hgl⟩
          have haidx : firstEncounterIdx files a =
              List.findIdx (fun x => languageMap x.extension == some a) processed := by
            unfold firstEncounterIdx
            rw [← hsplit]
            exact findIdx_append_of_exists _ processed _ hexa
          have hlt := List.findIdx_lt_length_of_exists hexa
          rw [hlangIdx, haidx]
          omega
        refine ih (processed ++ [f]) (bumpCount lang acc) ?_ ?_ ?_
        · rw [List.append_assoc]
          simpa using hsplit
        · intro l
          rw [hkeys]
          constructor
          · intro hl
            rcases List.mem_append.mp hl with hl | hl
            · rcases (hmem l).mp hl with ⟨g, hg, hgl⟩
              exact ⟨g, List.mem_append_left _ hg, hgl⟩
            · rw [List.mem_singleton] at hl
              subst hl
              exact ⟨f, List.mem_append_right _ (List.mem_singleton.mpr rfl), hm⟩
          · rintro ⟨g, hg, hgl⟩
            rcases List.mem_append.mp hg with hg | hg
            · exact List.mem_append_left _ ((hmem l).mpr ⟨g, hg, hgl⟩)
            · rw [List.mem_singleton] at hg
              subst hg
              rw [hm] at hgl
              injection hgl with hll
              subst hll
              exact List.mem_append_right _ (List.mem_singleton.mpr rfl)
        · rw [hkeys]
          exact hpw'

/-- Auxiliary: the counts object's keys appear in first-encounter order. -/
theorem countsKeys_pairwise (files : List FileDescriptor) :
    List.Pairwise
      (fun a b => firstEncounterIdx files a < firstEncounterIdx files b)
      ((languageCounts files).map Prod.fst) := by
  unfold languageCounts
  exact countsKeys_pairwise_aux files files [] [] rfl (by simp) (by simp)

/-- Auxiliary: membership through the stable insertion. -/
theorem mem_insertByCountDesc (x z : String × Nat) :
    ∀ l, z ∈ insertByCountDesc x l ↔ z = x ∨ z ∈ l := by
  intro l
  induction l with
  | nil => simp [insertByCountDesc]
  | cons y ys ih =>
    rw [insertByCountDesc]
    by_cases hc : x.2 < y.2
    · rw [if_pos hc, List.mem_cons, ih, List.mem_cons]
      tauto
    · rw [if_neg hc, List.mem_cons, List.mem_cons]

/-- Auxiliary: membership through the stable sort. -/
theorem mem_sortByCountDesc (z : String × Nat) :
    ∀ l, z ∈ sortByCountDesc l ↔ z ∈ l := by
  intro l
  induction l with
  | nil => simp [sortByCountDesc]
  | cons x xs ih =>
    rw [sortByCountDesc, mem_insertByCountDesc, ih, List.mem_cons]

/-- Auxiliary: the stable insertion preserves the combined
descending-count/first-encounter order when the inserted element's key comes
after every key already present. -/
theorem pairwise_insertByCountDesc (ord : String → Nat) (x : String × Nat) :
    ∀ l, List.Pairwise
        (fun a b => b.2 ≤ a.2 ∧ (a.2 = b.2 → ord a.1 < ord b.1)) l →
      (∀ y ∈ l, ord x.1 < ord y.1) →
      List.Pairwise
        (fun a b => b.2 ≤ a.2 ∧ (a.2 = b.2 → ord a.1 < ord b.1))
        (insertByCountDesc x l) := by
  intro l
  induction l with
  | nil => intro _ _; exact List.pairwise_singleton _ _
  | cons y ys ih =>
    intro hpw hord
    rw [insertByCountDesc]
    rcases List.pairwise_cons.mp hpw with ⟨hy, hys⟩
    by_cases hc : x.2 < y.2
    · rw [if_pos hc, List.pairwise_cons]
      refine ⟨?_, ih hys (fun z hz => hord z (List.mem_cons_of_mem y hz))⟩
      intro z hz
      rcases (mem_insertByCountDesc x z ys).mp hz with rfl | hz
      · exact ⟨Nat.le_of_lt hc, fun he => absurd he (by omega)⟩
      · exact hy z hz
    · rw [if_neg hc, List.pairwise_cons]
      refine ⟨?_, hpw⟩
      intro z hz
      rcases List.mem_cons.mp hz with rfl | hz
      · exact ⟨Nat.le_of_not_lt hc, fun _ => hord _ (List.mem_cons_self _ _)⟩
      · exact ⟨le_trans (hy z hz).1 (Nat.le_of_not_lt hc),
          fun _ => hord z (List.mem_cons_of_mem y hz)⟩

/-- Auxiliary: sorting a list whose keys are in strictly increasing
first-encounter order yields the combined descending-count order with ties in
first-encounter order. -/
theorem pairwise_sortByCountDesc (ord : String → Nat) :
    ∀ l, List.Pairwise (fun a b => ord a.1 < ord b.1) l →
      List.Pairwise
        (fun a b => b.2 ≤ a.2 ∧ (a.2 = b.2 → ord a.1 < ord b.1))
        (sortByCountDesc l) := by
  intro l
  induction l with
  | nil => intro _; exact List.Pairwise.nil
  | cons x xs ih =>
    intro hpw
    rcases List.pairwise_cons.mp hpw with ⟨hx, hxs⟩
    rw [sortByCountDesc]
    exact pairwise_insertByCountDesc ord x _ (ih hxs)
      (fun y hy => hx y ((mem_sortByCountDesc y xs).mp hy))

/-- Auxiliary: a key lookup ignores entries removed under a different key. -/
theorem find?_key_filterOut (q p : String) (h : p ≠ q) :
    ∀ l : List (String × FileData),
      List.find? (fun e => e.1 == p) (List.filter (fun e => !(e.1 == q)) l) =
      List.find? (fun e => e.1 == p) l := by
  intro l
  induction l with
  | nil => rfl
  | cons e es ih =>
    rw [List.filter_cons]
    by_cases h1 : (e.1 == q) = true
    · have h2 : ¬((fun e : String × FileData => e.1 == p) e = true) := by
        simp only [beq_iff_eq]
        intro hc
        exact h (by rw [← hc]; exact beq_iff_eq.mp h1)
      rw [if_neg (by simp [h1]), ih, List.find?_cons_of_neg es h2]
    · have h1' : (e.1 == q) = false := Bool.eq_false_iff.mpr h1
      rw [if_pos (by simp [h1'])]
      by_cases h2 : ((fun e : String × FileData => e.1 == p) e = true)
      · rw [@List.find?_cons_of_pos _ (fun e : String × FileData => e.1 == p) e
            (List.filter (fun e => !(e.1 == q)) es) h2,
          @List.find?_cons_of_pos _ (fun e : String × FileData => e.1 == p) e es h2]
      · rw [@List.find?_cons_of_neg _ (fun e : String × FileData => e.1 == p) e
            (List.filter (fun e => !(e.1 == q)) es) h2,
          @List.find?_cons_of_neg _ (fun e : String × FileData => e.1 == p) e es h2,
          ih]

/-- Auxiliary: removing one path from the filesystem leaves reads of every
other path unchanged. -/
theorem readFile_removeContent_ne (fs : FileSystem) (q p : String) (h : p ≠ q) :
    readFile (removeContent fs q) p = readFile fs p := by
  unfold readFile removeContent
  rw [find?_key_filterOut q p h fs]

/-- Auxiliary: reading the removed path fails. -/
theorem readFile_removeContent_self (fs : FileSystem) (q : String) :
    readFile (removeContent fs q) q = none := by
  have hnone : List.find? (fun e => e.1 == q) (removeContent fs q) = none := by
    rw [List.find?_eq_none]
    intro x hx hc
    have hf := (List.mem_filter.mp hx).2
    rw [hc] at hf
    simp at hf
  unfold readFile
  rw [hnone]
  rfl

/-- C2 (amended with "and containing no requirements.txt file"): for a file
list whose root `package.json` content fails to parse, the dependency
extractor degrades to the empty default (`production = development = []`,
`total = 0`, `packageManager = null`) without throwing (the embedding is
total), and the assembled analysis is exactly what it would be with the
manifest content absent — no other facet depends on the malformed content.
The last two hypotheses pin down that the descriptor is the well-formed one
the walk would produce (extension `.json`, full path unique in the list). -/
theorem C2_malformed_manifest_isolated (files : List FileDescriptor)
    (fs : FileSystem) (pkgFile : FileDescriptor) (fd : FileData)
    (rp rn ts : String)
    (hfind : List.find? isRootPackageJson files = some pkgFile)
    (hread : readFile fs pkgFile.fullPath = some fd)
    (hbad : fd.json = none)
    (hnoreq : List.find? isRequirementsFile files = none)
    (hext : pkgFile.extension = ".json")
    (huniq : ∀ g ∈ files, g.fullPath = pkgFile.fullPath → g = pkgFile) :
    analyzeDependencies files fs = emptyDependencies ∧
    performAnalysis files fs rp rn ts =
      performAnalysis files (removeContent fs pkgFile.fullPath) rp rn ts := by
  have hname : pkgFile.name = "package.json" := by
    have hp := List.find?_some hfind
    simp only [isRootPackageJson, Bool.and_eq_true] at hp
    exact beq_iff_eq.mp hp.1
  have hdeps : analyzeDependencies files fs = emptyDependencies := by
    unfold analyzeDependencies
    rw [hfind]
    dsimp only
    rw [hread]
    dsimp only
    rw [hbad]
    dsimp only
    rw [hnoreq]
  have hdeps' : analyzeDependencies files (removeContent fs pkgFile.fullPath) =
      emptyDependencies := by
    unfold analyzeDependencies
    rw [hfind]
    dsimp only
    rw [readFile_removeContent_self]
    dsimp only
    rw [hnoreq]
  have hfw : analyzeFrameworks files fs =
      analyzeFrameworks files (removeContent fs pkgFile.fullPath) := by
    unfold analyzeFrameworks
    rw [hfind, hnoreq]
    dsimp only
    rw [hread, readFile_removeContent_self]
    dsimp only
    rw [hbad]
    dsimp only
    cases hpom : List.find? (fun f => f.name == "pom.xml") files with
    | none => rfl
    | some pf =>
      dsimp only
      have hpf :=
        @List.find?_some _ (fun f : FileDescriptor => f.name == "pom.xml") pf
          files hpom
      have hpfname : pf.name = "pom.xml" := beq_iff_eq.mp hpf
      have hne : pf.fullPath ≠ pkgFile.fullPath := by
        intro he
        have heq := huniq pf (List.mem_of_find?_eq_some hpom) he
        rw [heq, hname] at hpfname
        exact absurd hpfname (by decide)
      rw [readFile_removeContent_ne fs _ _ hne]
  have hrd : findAndReadReadme files fs =
      findAndReadReadme files (removeContent fs pkgFile.fullPath) := by
    unfold findAndReadReadme
    cases hr : List.find? isRootReadme files with
    | none => rfl
    | some rf =>
      dsimp only
      have hpred : isRootReadme rf = true := List.find?_some hr
      simp only [isRootReadme, Bool.and_eq_true] at hpred
      have hne : rf.fullPath ≠ pkgFile.fullPath := by
        intro he
        have heq := huniq rf (List.mem_of_find?_eq_some hr) he
        rw [heq, hname] at hpred
        exact absurd hpred.1 (by decide)
      rw [readFile_removeContent_ne fs _ _ hne]
  have hspec : findApiSpecs files fs =
      findApiSpecs files (removeContent fs pkgFile.fullPath) := by
    unfold findApiSpecs
    dsimp only
    congr 1
    · apply List.filterMap_congr
      intro f hf
      have hmf := List.mem_filter.mp (List.mem_of_mem_take hf)
      have hne : f.fullPath ≠ pkgFile.fullPath := by
        intro he
        have heq := huniq f hmf.1 he
        have hcand := hmf.2
        rw [heq] at hcand
        simp only [isSpecCandidate, Bool.and_eq_true] at hcand
        obtain ⟨⟨_, hb⟩, _⟩ := hcand
        rw [hname, hext] at hb
        exact absurd hb (by decide)
      rw [readFile_removeContent_ne fs _ _ hne]
    · apply List.filterMap_congr
      intro f hf
      have hmf := List.mem_filter.mp (List.mem_of_mem_take hf)
      have hne : f.fullPath ≠ pkgFile.fullPath := by
        intro he
        have heq := huniq f hmf.1 he
        have hcand := hmf.2
        rw [heq] at hcand
        simp only [isGraphqlCandidate, Bool.and_eq_true] at hcand
        obtain ⟨_, hb⟩ := hcand
        rw [hname, hext] at hb
        exact absurd hb (by decide)
      rw [readFile_removeContent_ne fs _ _ hne]
  have hmet : calculateCodeMetrics files fs =
      calculateCodeMetrics files (removeContent fs pkgFile.fullPath) := by
    unfold calculateCodeMetrics
    dsimp only
    have hsam : (List.take 10 (files.filter
          (fun f => !f.isDirectory && codeExtensions.contains f.extension))).filterMap
            (fun f => readFile fs f.fullPath) =
        (List.take 10 (files.filter
          (fun f => !f.isDirectory && codeExtensions.contains f.extension))).filterMap
            (fun f => readFile (removeContent fs pkgFile.fullPath) f.fullPath) := by
      apply List.filterMap_congr
      intro f hf
      have hmf := List.mem_filter.mp (List.mem_of_mem_take hf)
      have hne : f.fullPath ≠ pkgFile.fullPath := by
        intro he
        have heq := huniq f hmf.1 he
        have hcand := hmf.2
        simp only [Bool.and_eq_true] at hcand
        rw [heq, hext] at hcand
        exact absurd hcand.2 (by decide)
      rw [readFile_removeContent_ne fs _ _ hne]
    rw [hsam]
  refine ⟨hdeps, ?_⟩
  unfold performAnalysis
  rw [hfw, hdeps, hdeps', hrd, hspec, hmet]

/-- Witness for the amended C2 at a one-file list with the malformed
manifest. -/
theorem C2_malformed_manifest_isolated_witness :
    (List.find? isRootPackageJson [pkgDescriptor] = some pkgDescriptor ∧
      readFile badPkgFs pkgDescriptor.fullPath = some badPkgData ∧
      badPkgData.json = none ∧
      List.find? isRequirementsFile [pkgDescriptor] = none ∧
      pkgDescriptor.extension = ".json" ∧
      (∀ g ∈ [pkgDescriptor], g.fullPath = pkgDescriptor.fullPath →
        g = pkgDescriptor)) ∧
    analyzeDependencies [pkgDescriptor] badPkgFs = emptyDependencies ∧
    performAnalysis [pkgDescriptor] badPkgFs "/tmp/repo" "repo" "t0" =
      performAnalysis [pkgDescriptor]
        (removeContent badPkgFs pkgDescriptor.fullPath) "/tmp/repo" "repo" "t0" :=
  ⟨⟨by decide, rfl, rfl, by decide, rfl, by decide⟩,
   (C2_malformed_manifest_isolated [pkgDescriptor] badPkgFs pkgDescriptor
      badPkgData "/tmp/repo" "repo" "t0" (by decide) rfl rfl (by decide) rfl
      (by decide)).1,
   (C2_malformed_manifest_isolated [pkgDescriptor] badPkgFs pkgDescriptor
      badPkgData "/tmp/repo" "repo" "t0" (by decide) rfl rfl (by decide) rfl
      (by decide)).2⟩

/-- C5: for every file list, the `languages` facet is sorted by `fileCount`
descending, and any two languages with equal `fileCount` appear in the order
in which their extensions are first encountered while scanning the file
list. -/
theorem C5_languages_sorted_ties_first_encounter (files : List FileDescriptor) :
    List.Pairwise
      (fun a b => b.fileCount ≤ a.fileCount ∧
        (a.fileCount = b.fileCount →
          firstEncounterIdx files a.language < firstEncounterIdx files b.language))
      (analyzeLanguages files) := by
  unfold analyzeLanguages
  rw [List.pairwise_map]
  have hk : List.Pairwise
      (fun a b : String × Nat =>
        firstEncounterIdx files a.1 < firstEncounterIdx files b.1)
      (languageCounts files) := by
    have h := countsKeys_pairwise files
    rw [List.pairwise_map] at h
    exact h
  exact pairwise_sortByCountDesc (firstEncounterIdx files) _ hk

end DocWeave
